import Mathlib

/-!
Verification of the permutation-generation core of
`src/Bicycle_Pertmuts.py` (function `generate_bicycles_from_sheets`,
lines 33-148).

The Python function consumes a mapping from sheet name to a pandas
DataFrame (string cells, `NaN` for blank cells) and produces a list of
flat string-to-string records.  We embed it shallowly:

* a DataFrame is an ordered list of column headers together with a list
  of rows, a row being a list of cells aligned positionally with the
  headers; a cell is `Option String`, `none` standing for `NaN`;
* a Python `dict` with string keys is an association list whose insert
  operation replaces the value of an existing key in place (keeping the
  position of the first insertion) and appends unknown keys, exactly the
  semantics of CPython dict assignment;
* `df[c]` / `row[c]` access by column name resolves to the first column
  whose header equals the name, which in the DataFrames produced by
  `pandas.read_excel` (unique headers) is the positional column;
* `astype(str)` applied to a cell maps `NaN` to the string "nan" and is
  the identity on string cells, matching pandas;
* the single `raise ValueError` becomes an `Except` error value.
-/

namespace BicyclePermuts

/-- The only failure of the generator: no sheet named "ID"
(`raise ValueError(...)`, line 47 of the source). -/
inductive GenError where
  | MissingAxisTable : GenError
deriving DecidableEq, Repr

/-- A pandas DataFrame as consumed by the generator: ordered column
headers and rows of optional string cells (`none` = blank/NaN). -/
structure DataFrame where
  columns : List String
  rows : List (List (Option String))
deriving DecidableEq, Repr

/-- A flat output record (Python dict from attribute name to string). -/
abbrev Record := List (String × String)

/-- The input mapping from sheet name to table
(`sheets: Dict[str, DataFrame]`). -/
abbrev Sheets := List (String × DataFrame)

/-- Python dict assignment `d[k] = v`: replace the value in place when
the key is present (keeping the position of its first insertion), append
otherwise.  This is CPython dict-update semantics, shared by the record
dicts and the sheet map of the source. -/
def pdInsert {α : Type} (d : List (String × α)) (k : String) (v : α) :
    List (String × α) :=
  if d.any (fun p => p.1 == k) then
    d.map (fun p => if p.1 == k then (k, v) else p)
  else d ++ [(k, v)]

/-- Python dict read `d[k]` / membership test, as an optional value. -/
def pdLookup {α : Type} (d : List (String × α)) (k : String) : Option α :=
  (d.find? (fun p => p.1 == k)).map (fun p => p.2)

/-- Dict assignment on an output record (`bike[k] = v`). -/
def dinsert (d : Record) (k v : String) : Record := pdInsert d k v

/-- Dict read on an output record. -/
def dlookup (d : Record) (k : String) : Option String := pdLookup d k

/-- Dict assignment for the sheet map `designator_sheet_map[k] = df`
(line 76). -/
def sinsert (m : List (String × DataFrame)) (k : String) (df : DataFrame) :
    List (String × DataFrame) := pdInsert m k df

/-- Dict read on the sheet map. -/
def dlookupDF (m : List (String × DataFrame)) (k : String) : Option DataFrame :=
  pdLookup m k

/-- Read a named sheet from the input mapping (`sheets[name]`). -/
def lookupSheet (name : String) (sheets : Sheets) : Option DataFrame :=
  pdLookup sheets name

/-- pandas `astype(str)` on one object cell: `NaN` prints as "nan",
string cells are unchanged (`str(v)` is the identity on strings). -/
def cellStr : Option String → String
  | none => "nan"
  | some s => s

/-- Position of a named column: first header equal to the name
(pandas name-based access `df[name]` / `row[name]`). -/
def colIndex (df : DataFrame) (name : String) : Nat :=
  df.columns.findIdx (fun c => c == name)

/-- The cells of a named column, one per row (`df[name].tolist()`). -/
def DataFrame.col (df : DataFrame) (name : String) : List (Option String) :=
  df.rows.map (fun r => r.getD (colIndex df name) none)

/-- Lines 52-55: for each ID-sheet column, the non-blank values in row
order (`[str(v) for v in id_df[col].tolist() if pd.notna(v)]`). -/
def valueLists (df : DataFrame) : List (List String) :=
  df.columns.map (fun c => (df.col c).filterMap id)

/-- Lines 62-65: turn one data row into a dict, pairing each header with
the cell at its position and skipping blank cells
(`for k, v in row.items(): if pd.notna(v): general[str(k)] = str(v)`). -/
def rowDict (cols : List String) (r : List (Option String)) : Record :=
  cols.enum.foldl (fun d p =>
    match r.getD p.1 none with
    | none => d
    | some v => dinsert d p.2 v) []

/-- Lines 58-65: the GENERAL sheet contributes only its first data row;
no sheet or no data row gives the empty dict. -/
def sharedDefaultsOf (sheets : Sheets) : Record :=
  match lookupSheet "GENERAL" sheets with
  | none => []
  | some df =>
    match df.rows with
    | [] => []
    | r :: _ => rowDict df.columns r

/-- Lines 68-76: classify the remaining sheets.  Sheets named "ID" or
"GENERAL" are passed over, sheets with zero columns are passed over, the
rest are keyed by their first column header with dict-assignment
(last table wins on a duplicate key). -/
def designatorMapOf (sheets : Sheets) : List (String × DataFrame) :=
  sheets.foldl (fun m p =>
    if p.1 == "ID" || p.1 == "GENERAL" then m
    else if p.2.columns.isEmpty then m
    else sinsert m (p.2.columns.headD "") p.2) []

/-- Python `sep.join(parts)` (line 97). -/
def pyJoin (sep : String) : List String → String
  | [] => ""
  | [x] => x
  | x :: y :: rest => x ++ sep ++ pyJoin sep (y :: rest)

/-- Line 83: `itertools.product(*lists_of_values)` — cartesian product
with the last factor varying fastest. -/
def product : List (List String) → List (List String)
  | [] => [[]]
  | l :: ls => l.flatMap (fun x => (product ls).map (fun c => x :: c))

/-- Lines 112-122 (and identically 134-144): select the rows of an
override table whose stringified key-column cell equals the chosen
designator value, then write each non-blank non-key cell into the record
under its column header, row by row, column by column. -/
def applyMatchedRows (df : DataFrame) (value : String) (bike : Record) : Record :=
  let first_col := df.columns.headD ""
  let matched := df.rows.filter (fun r =>
    cellStr (r.getD (colIndex df first_col) none) == value)
  matched.foldl (fun b r =>
    (df.columns.drop 1).foldl (fun b2 col =>
      match r.getD (colIndex df col) none with
      | none => b2
      | some v => dinsert b2 col v) b) bike

/-- Lines 104-122: designator_order mode.  Enumerate the combination;
for position `i` take the `i`-th ID column name; if the sheet map has a
table under that name, apply its matching rows. -/
def mergeDesignatorOrder (names : List String) (smap : List (String × DataFrame))
    (combo : List String) (bike : Record) : Record :=
  combo.enum.foldl (fun b p =>
    match dlookupDF smap (names.getD p.1 "") with
    | none => b
    | some df => applyMatchedRows df p.2 b) bike

/-- Lines 123-144: sheet_priority mode.  Walk the sheet-map keys in
order; skip a key that is not an ID column name; otherwise resolve the
axis position, pick the combination value there, and apply the matching
rows of that key's table. -/
def mergeSheetPriority (names : List String) (smap : List (String × DataFrame))
    (combo : List String) (bike : Record) : Record :=
  (smap.map Prod.fst).foldl (fun b sheetName =>
    if names.contains sheetName then
      match dlookupDF smap sheetName with
      | none => b
      | some df =>
        applyMatchedRows df (combo.getD (names.findIdx (fun n => n == sheetName)) "") b
    else b) bike

/-- Line 101: `bike.update(general)` — write every defaults pair into
the record in order. -/
def applyGeneral (general : Record) (bike : Record) : Record :=
  general.foldl (fun b p => dinsert b p.1 p.2) bike

/-- Lines 94-146: build one output record for one combination: seed with
the joined identifier under "ID", layer the GENERAL defaults, then merge
overrides under the selected precedence mode. -/
def mkBike (sep : String) (general : Record) (names : List String)
    (smap : List (String × DataFrame)) (prec : String) (combo : List String) : Record :=
  let bike : Record := [("ID", pyJoin sep combo)]
  let bike := applyGeneral general bike
  if prec == "designator_order" then mergeDesignatorOrder names smap combo bike
  else mergeSheetPriority names smap combo bike

/-- Lines 33-148: the whole generator.  Fails only when no sheet is
named "ID"; returns the empty list when some axis has no values;
otherwise maps the record builder over the cartesian product. -/
def generate_bicycles_from_sheets (sheets : Sheets) (id_separator : String)
    (precedence : String) : Except GenError (List Record) :=
  match lookupSheet "ID" sheets with
  | none => Except.error GenError.MissingAxisTable
  | some id_df =>
    let designator_names := id_df.columns
    let lists_of_values := valueLists id_df
    let general := sharedDefaultsOf sheets
    let smap := designatorMapOf sheets
    if lists_of_values.any (fun vals => vals.length == 0) then Except.ok []
    else
      Except.ok ((product lists_of_values).map
        (mkBike id_separator general designator_names smap precedence))

/-!
Specification-side definitions.  Each follows the wording of the design
document rather than the control flow of the source, and is compared
with the corresponding source embedding by a theorem below.
-/

/-- The attribute fields of one override row restricted to a column
list: each listed column paired with its non-blank cell, blanks omitted
(spec section 3, OverrideTable rows). -/
def rowFieldsOn (df : DataFrame) (r : List (Option String)) (cs : List String) :
    List (String × String) :=
  cs.filterMap (fun col => (r.getD (colIndex df col) none).map (fun v => (col, v)))

/-- The attribute fields of one override row: all columns after the key
column. -/
def rowFields (df : DataFrame) (r : List (Option String)) : List (String × String) :=
  rowFieldsOn df r (df.columns.drop 1)

/-- Spec wording of one override-table application: find all rows whose
key-column value equals the chosen value, collect their attribute fields
in row order, and apply them so that a later field wins over an earlier
same-named field. -/
def specApplyTable (df : DataFrame) (value : String) (bike : Record) : Record :=
  let matched := df.rows.filter (fun r =>
    cellStr (r.getD (colIndex df (df.columns.headD "")) none) == value)
  (matched.flatMap (rowFields df)).foldl (fun b p => dinsert b p.1 p.2) bike

/-- Spec wording of designator_order: iterate the axes in their
ID-column declaration order, paired with the combination values, and for
each axis that has an override table apply that table. -/
def specMergeDesignatorOrder (names : List String) (smap : List (String × DataFrame))
    (combo : List String) (bike : Record) : Record :=
  (names.zip combo).foldl (fun b q =>
    match dlookupDF smap q.1 with
    | none => b
    | some df => specApplyTable df q.2 b) bike

/-- Spec wording of sheet_priority: iterate the override tables in their
classification order; a table whose key axis name is not a declared axis
is skipped entirely; otherwise the key axis position selects the
combination value and the table is applied. -/
def specMergeSheetPriority (names : List String) (smap : List (String × DataFrame))
    (combo : List String) (bike : Record) : Record :=
  smap.foldl (fun b p =>
    if names.contains p.1 then
      specApplyTable p.2 (combo.getD (names.findIdx (fun n => n == p.1)) "") b
    else b) bike

/-- Mixed-radix decoding of a combination index, last axis fastest: the
combination at position `i` of the enumeration takes from the first axis
the value at `i` divided by the number of combinations of the remaining
axes, and recurses on the remainder. -/
def decodeCombo : List (List String) → Nat → List String
  | [], _ => []
  | l :: rest, i =>
    l.getD (i / ((rest.map List.length).prod)) "" ::
      decodeCombo rest (i % ((rest.map List.length).prod))

/-- Spec wording of the combination enumeration: exactly the product of
the axis cardinalities many combinations, listed in mixed-radix order
with the last axis varying fastest. -/
def specEnum (ls : List (List String)) : List (List String) :=
  (List.range ((ls.map List.length).prod)).map (decodeCombo ls)

/-- Modelled on the spec wording for the classifier: the override table
stored under key `k` is the LAST input table that is not named "ID" or
"GENERAL", has at least one column, and whose first column header is
`k`. -/
def specLastOverride (sheets : Sheets) (k : String) : Option DataFrame :=
  (sheets.reverse.find? (fun p =>
    !(p.1 == "ID" || p.1 == "GENERAL") && !p.2.columns.isEmpty &&
      (p.2.columns.headD "" == k))).map (fun p => p.2)

/-!
Concrete tables used as test inputs by the theorems below.
-/

/-- An ID sheet with two axes A and B, one value each. -/
def idAB : DataFrame := ⟨["A", "B"], [[some "a", some "b"]]⟩

/-- An override table keyed by axis A setting field F to vA. -/
def tblA : DataFrame := ⟨["A", "F"], [[some "a", some "vA"]]⟩

/-- An override table keyed by axis B setting field F to vB. -/
def tblB : DataFrame := ⟨["B", "F"], [[some "b", some "vB"]]⟩

/-- An input whose table-discovery order (B before A) differs from the
axis-declaration order (A before B). -/
def sheetsBA : Sheets := [("ID", idAB), ("T1", tblB), ("T2", tblA)]

/-- A one-row GENERAL sheet. -/
def genDf : DataFrame := ⟨["Manufacturer"], [[some "Acme"]]⟩

/-- An input with an ID sheet and a GENERAL sheet. -/
def sheetsGen : Sheets := [("ID", idAB), ("GENERAL", genDf)]

/-- An ID sheet with one axis whose column repeats a value. -/
def dupDf : DataFrame := ⟨["A"], [[some "X"], [some "X"]]⟩

/-- An ID sheet whose second axis has only a blank cell, hence zero
values. -/
def emptyAxisDf : DataFrame := ⟨["A", "B"], [[some "x", none]]⟩

/-- An ID sheet with two axes whose values concatenate ambiguously when
the separator is empty. -/
def idAmb : DataFrame := ⟨["X", "Y"], [[some "A", some "BC"], [some "AB", some "C"]]⟩

/-- An ID sheet with zero columns. -/
def idZero : DataFrame := ⟨[], []⟩

/-- An input with a zero-column ID sheet and a GENERAL sheet. -/
def sheetsZero : Sheets := [("ID", idZero), ("GENERAL", genDf)]

/-! Basic facts about the Python dict model. -/

theorem pdLookup_cons {α : Type} (p : String × α) (d : List (String × α)) (k : String) :
    pdLookup (p :: d) k = if p.1 = k then some p.2 else pdLookup d k := by
  by_cases h : p.1 = k
  · simp [pdLookup, List.find?_cons, h]
  · simp [pdLookup, List.find?_cons, h]

theorem pdLookup_eq_none_of_any_false {α : Type} (d : List (String × α)) (k : String)
    (h : d.any (fun p => p.1 == k) = false) : pdLookup d k = none := by
  induction d with
  | nil => rfl
  | cons p d ih =>
    simp only [List.any_cons, Bool.or_eq_false_iff] at h
    rw [pdLookup_cons]
    have hpk : ¬ p.1 = k := by
      intro he
      rw [he] at h
      simp at h
    simp [hpk, ih h.2]

theorem pdLookup_map_ne {α : Type} (d : List (String × α)) (k k' : String) (v : α)
    (hne : k' ≠ k) :
    pdLookup (d.map (fun p => if p.1 == k then (k, v) else p)) k' = pdLookup d k' := by
  induction d with
  | nil => rfl
  | cons p d ih =>
    simp only [List.map_cons]
    by_cases hp : (p.1 == k) = true
    · have hpk : p.1 = k := by simpa using hp
      rw [if_pos hp, pdLookup_cons, pdLookup_cons, ih]
      have h1 : ¬ ((k, v).1 = k') := fun h => hne h.symm
      have h2 : ¬ (p.1 = k') := fun h => hne (hpk.symm.trans h).symm
      rw [if_neg h1, if_neg h2]
    · rw [if_neg hp, pdLookup_cons, pdLookup_cons, ih]

theorem pdLookup_map_self {α : Type} (d : List (String × α)) (k : String) (v : α)
    (hmem : d.any (fun p => p.1 == k) = true) :
    pdLookup (d.map (fun p => if p.1 == k then (k, v) else p)) k = some v := by
  induction d with
  | nil => simp at hmem
  | cons p d ih =>
    by_cases hp : p.1 = k
    · simp only [List.map_cons]
      rw [if_pos (by simp [hp]), pdLookup_cons]
      simp
    · simp only [List.any_cons, Bool.or_eq_true_iff] at hmem
      rcases hmem with hmem | hmem

      · exact absurd (by simpa using hmem) hp
      · simp only [List.map_cons]
        rw [if_neg (by simp [hp]), pdLookup_cons, if_neg hp, ih hmem]

theorem pdLookup_append_single {α : Type} (d : List (String × α)) (k : String) (v : α)
    (k' : String) :
    pdLookup (d ++ [(k, v)]) k' =
      match pdLookup d k' with
      | some w => some w
      | none => if k' = k then some v else none := by
  unfold pdLookup
  rw [List.find?_append]
  cases hf : (d.find? (fun p => p.1 == k')) with
  | none =>
    by_cases h : k = k'
    · simp [Option.or, List.find?_cons, h]
    · have : ¬ (k' = k) := fun he => h he.symm
      simp [Option.or, List.find?_cons, h, this]
  | some w => simp [Option.or]

/-- The central dict-update law: a fresh assignment shadows the old
binding of its key and leaves every other key unchanged. -/
theorem pdLookup_pdInsert {α : Type} (d : List (String × α)) (k : String) (v : α)
    (k' : String) :
    pdLookup (pdInsert d k v) k' = if k' = k then some v else pdLookup d k' := by
  unfold pdInsert
  cases hmem : d.any (fun p => p.1 == k) with
  | true =>
    rw [if_pos rfl]
    by_cases h : k' = k
    · rw [h, if_pos rfl, pdLookup_map_self d k v hmem]
    · rw [if_neg h, pdLookup_map_ne d k k' v h]
  | false =>
    rw [if_neg (by simp), pdLookup_append_single]
    by_cases h : k' = k
    · rw [if_pos h, h, pdLookup_eq_none_of_any_false d k hmem]
      simp
    · rw [if_neg h]
      cases pdLookup d k' <;> simp [h]

theorem pdInsert_keys {α : Type} (d : List (String × α)) (k : String) (v : α) :
    (pdInsert d k v).map Prod.fst =
      if d.any (fun p => p.1 == k) then d.map Prod.fst else d.map Prod.fst ++ [k] := by
  unfold pdInsert
  cases hmem : d.any (fun p => p.1 == k) with
  | true =>
    rw [if_pos rfl, if_pos rfl, List.map_map]
    refine List.map_congr_left (fun p _ => ?_)
    by_cases hp : (p.1 == k) = true
    · have hpk : p.1 = k := by simpa using hp
      simp [Function.comp, hp, hpk]
    · simp [Function.comp, hp]
  | false =>
    rw [if_neg (by simp), if_neg (by simp), List.map_append]
    rfl

theorem pdInsert_keys_nodup {α : Type} (d : List (String × α)) (k : String) (v : α)
    (h : (d.map Prod.fst).Nodup) : ((pdInsert d k v).map Prod.fst).Nodup := by
  rw [pdInsert_keys]
  cases hmem : d.any (fun p => p.1 == k) with
  | true => simpa using h
  | false =>
    rw [if_neg (by simp)]
    have hk : k ∉ d.map Prod.fst := by
      intro hx
      rcases List.mem_map.mp hx with ⟨p, hp, hpk⟩
      have : d.any (fun p => p.1 == k) = true :=
        List.any_eq_true.mpr ⟨p, hp, by simp [hpk]⟩
      rw [this] at hmem
      exact Bool.noConfusion hmem
    refine List.nodup_append.mpr ⟨h, List.nodup_singleton k, ?_⟩
    intro x hx hxk
    have hxe : x = k := List.mem_singleton.mp hxk
    exact hk (hxe ▸ hx)

theorem pdLookup_self_of_nodup {α : Type} (d : List (String × α))
    (h : (d.map Prod.fst).Nodup) : ∀ p ∈ d, pdLookup d p.1 = some p.2 := by
  induction d with
  | nil => intro p hp; simp at hp
  | cons q d ih =>
    intro p hp
    rcases List.mem_cons.mp hp with rfl | hp
    · rw [pdLookup_cons, if_pos rfl]
    · rw [pdLookup_cons]
      have hq : q.1 ∉ d.map Prod.fst := (List.nodup_cons.mp h).1
      have hne : ¬ q.1 = p.1 := by
        intro he
        exact hq (he ▸ List.mem_map.mpr ⟨p, hp, rfl⟩)
      rw [if_neg hne]
      exact ih (List.nodup_cons.mp h).2 p hp

theorem pdLookup_pdInsert_isSome {α : Type} (d : List (String × α)) (k : String)
    (v : α) (k' : String) (h : (pdLookup d k').isSome) :
    (pdLookup (pdInsert d k v) k').isSome := by
  rw [pdLookup_pdInsert]
  by_cases he : k' = k
  · simp [he]
  · simpa [he] using h

/-! Bridging the source merge loops with their specification wording. -/

theorem foldl_dinsert_rowFieldsOn (df : DataFrame) (r : List (Option String)) :
    ∀ (cs : List String) (b : Record),
    (rowFieldsOn df r cs).foldl (fun b p => dinsert b p.1 p.2) b =
      cs.foldl (fun b2 col =>
        match r.getD (colIndex df col) none with
        | none => b2
        | some v => dinsert b2 col v) b := by
  intro cs
  induction cs with
  | nil => intro b; rfl
  | cons c cs ih =>
    intro b
    unfold rowFieldsOn
    simp only [List.filterMap_cons, List.foldl_cons]
    cases hc : r.getD (colIndex df c) none with
    | none =>
      simp only [Option.map_none']
      exact ih b
    | some v =>
      simp only [Option.map_some', List.foldl_cons]
      exact ih (dinsert b c v)

/-- One override-table application of the source equals the spec
wording of the same step. -/
theorem applyMatchedRows_eq_spec (df : DataFrame) (value : String) (bike : Record) :
    applyMatchedRows df value bike = specApplyTable df value bike := by
  unfold applyMatchedRows specApplyTable
  have h1 : ∀ (M : List (List (Option String))) (b : Record),
      (M.flatMap (rowFields df)).foldl (fun b p => dinsert b p.1 p.2) b =
        M.foldl (fun acc r =>
          (rowFields df r).foldl (fun b p => dinsert b p.1 p.2) acc) b := by
    intro M b
    rw [show M.flatMap (rowFields df) = (M.map (rowFields df)).flatten from rfl,
      List.foldl_flatten, List.foldl_map]
  rw [h1]
  have h2 : (fun (acc : Record) (r : List (Option String)) =>
        (rowFields df r).foldl (fun b p => dinsert b p.1 p.2) acc) =
      (fun acc r => (df.columns.drop 1).foldl (fun b2 col =>
        match r.getD (colIndex df col) none with
        | none => b2
        | some v => dinsert b2 col v) acc) := by
    funext acc r
    exact foldl_dinsert_rowFieldsOn df r (df.columns.drop 1) acc
  rw [h2]

theorem mergeDesignatorOrder_enumFrom (names : List String)
    (smap : List (String × DataFrame)) :
    ∀ (combo : List String) (i : Nat) (bike : Record),
    i + combo.length ≤ names.length →
    (List.enumFrom i combo).foldl (fun b p =>
        match dlookupDF smap (names.getD p.1 "") with
        | none => b
        | some df => applyMatchedRows df p.2 b) bike =
      ((names.drop i).zip combo).foldl (fun b q =>
        match dlookupDF smap q.1 with
        | none => b
        | some df => specApplyTable df q.2 b) bike := by
  intro combo
  induction combo with
  | nil => intro i bike h; simp [List.zip_nil_right]
  | cons v rest ih =>
    intro i bike h
    have hi : i < names.length := by
      have := h
      simp only [List.length_cons] at this
      omega
    rw [show List.enumFrom i (v :: rest) = (i, v) :: List.enumFrom (i + 1) rest from rfl,
      List.drop_eq_get_cons hi, List.foldl_cons]
    rw [show (names.get ⟨i, hi⟩ :: names.drop (i + 1)).zip (v :: rest) =
      (names.get ⟨i, hi⟩, v) :: (names.drop (i + 1)).zip rest from rfl, List.foldl_cons]
    rw [List.getD_eq_get names "" hi]
    cases hdf : dlookupDF smap (names.get ⟨i, hi⟩) with
    | none =>
      dsimp only
      exact ih (i + 1) bike (by simp only [List.length_cons] at h; omega)
    | some df =>
      dsimp only
      rw [applyMatchedRows_eq_spec]
      exact ih (i + 1) (specApplyTable df v bike)
        (by simp only [List.length_cons] at h; omega)

/-- The designator_order loop of the source equals the spec wording,
whenever the combination is no longer than the axis list (in the
generator they always have equal length). -/
theorem mergeDesignatorOrder_eq_spec (names : List String)
    (smap : List (String × DataFrame)) (combo : List String) (bike : Record)
    (h : combo.length ≤ names.length) :
    mergeDesignatorOrder names smap combo bike =
      specMergeDesignatorOrder names smap combo bike := by
  unfold mergeDesignatorOrder specMergeDesignatorOrder
  have := mergeDesignatorOrder_enumFrom names smap combo 0 bike (by simpa using h)
  simpa [List.enum] using this

theorem mergeSheetPriority_aux (names : List String) (combo : List String)
    (smap : List (String × DataFrame)) :
    ∀ (m : List (String × DataFrame)) (bike : Record),
    (∀ p ∈ m, dlookupDF smap p.1 = some p.2) →
    (m.map Prod.fst).foldl (fun b sheetName =>
        if names.contains sheetName then
          match dlookupDF smap sheetName with
          | none => b
          | some df =>
            applyMatchedRows df
              (combo.getD (names.findIdx (fun n => n == sheetName)) "") b
        else b) bike =
      m.foldl (fun b p =>
        if names.contains p.1 then
          specApplyTable p.2 (combo.getD (names.findIdx (fun n => n == p.1)) "") b
        else b) bike := by
  intro m
  induction m with
  | nil => intro bike h; rfl
  | cons p m ih =>
    intro bike h
    simp only [List.map_cons, List.foldl_cons]
    have hp : dlookupDF smap p.1 = some p.2 := h p (List.mem_cons_self p m)
    by_cases hc : names.contains p.1
    · rw [if_pos hc, if_pos hc, hp]
      dsimp only
      rw [applyMatchedRows_eq_spec]
      exact ih _ (fun q hq => h q (List.mem_cons_of_mem p hq))
    · rw [if_neg hc, if_neg hc]
      exact ih _ (fun q hq => h q (List.mem_cons_of_mem p hq))

theorem designatorMapOf_aux_nodup (ss : Sheets) :
    ∀ (m : List (String × DataFrame)), (m.map Prod.fst).Nodup →
    ((ss.foldl (fun m p =>
      if p.1 == "ID" || p.1 == "GENERAL" then m
      else if p.2.columns.isEmpty then m
      else sinsert m (p.2.columns.headD "") p.2) m).map Prod.fst).Nodup := by
  induction ss with
  | nil => intro m hm; exact hm
  | cons s ss ih =>
    intro m hm
    rw [List.foldl_cons]
    refine ih _ ?_
    by_cases h1 : (s.1 == "ID" || s.1 == "GENERAL") = true
    · simpa [h1] using hm
    · rw [if_neg h1]
      by_cases h2 : s.2.columns.isEmpty
      · simpa [h2] using hm
      · rw [if_neg h2]
        exact pdInsert_keys_nodup m (s.2.columns.headD "") s.2 hm

/-- The classified sheet map never repeats a key-column name. -/
theorem designatorMapOf_keys_nodup (sheets : Sheets) :
    ((designatorMapOf sheets).map Prod.fst).Nodup :=
  designatorMapOf_aux_nodup sheets [] List.nodup_nil

/-- The sheet_priority loop of the source (which walks the key list and
re-reads the dict) equals the spec wording (which walks the classified
tables directly), for any map produced by the classifier. -/
theorem mergeSheetPriority_eq_spec (sheets : Sheets) (names : List String)
    (combo : List String) (bike : Record) :
    mergeSheetPriority names (designatorMapOf sheets) combo bike =
      specMergeSheetPriority names (designatorMapOf sheets) combo bike := by
  unfold mergeSheetPriority specMergeSheetPriority
  exact mergeSheetPriority_aux names combo (designatorMapOf sheets)
    (designatorMapOf sheets) bike
    (pdLookup_self_of_nodup (designatorMapOf sheets) (designatorMapOf_keys_nodup sheets))

/-! Facts about the cartesian product. -/

theorem flatMap_congr {α β : Type} (l : List α) (f g : α → List β)
    (h : ∀ a ∈ l, f a = g a) : l.flatMap f = l.flatMap g := by
  induction l with
  | nil => rfl
  | cons x l ih =>
    rw [show (x :: l).flatMap f = f x ++ l.flatMap f from rfl,
      show (x :: l).flatMap g = g x ++ l.flatMap g from rfl,
      h x (List.mem_cons_self x l), ih (fun a ha => h a (List.mem_cons_of_mem x ha))]

theorem range_map_getD {α : Type} (l : List α) (d : α) :
    (List.range l.length).map (fun i => l.getD i d) = l := by
  induction l with
  | nil => rfl
  | cons x l ih =>
    rw [List.length_cons, List.range_succ_eq_map, List.map_cons, List.map_map]
    have htail :
        List.map ((fun i => (x :: l).getD i d) ∘ Nat.succ) (List.range l.length) = l := by
      refine (List.map_congr_left (fun i _ => ?_)).trans ih
      simp [Function.comp]
    rw [htail, List.getD_cons_zero]

theorem flatMap_const_nil {α β : Type} (l : List α) :
    l.flatMap (fun _ => ([] : List β)) = [] := by
  induction l with
  | nil => rfl
  | cons x l ih => simp [ih]

theorem range_mul_flatMap (n P : Nat) :
    List.range (n * P) =
      (List.range n).flatMap (fun a => (List.range P).map (fun b => P * a + b)) := by
  induction n with
  | zero => rw [Nat.zero_mul]; rfl
  | succ n ih =>
    rw [Nat.succ_mul, List.range_add, ih, List.range_succ, List.flatMap_append]
    congr 1
    simp only [List.flatMap_cons, List.flatMap_nil, List.append_nil]
    refine List.map_congr_left (fun b _ => ?_)
    rw [Nat.mul_comm P n]

theorem product_of_mem_nil (ls : List (List String)) (h : [] ∈ ls) :
    product ls = [] := by
  induction ls with
  | nil => simp at h
  | cons l ls ih =>
    rcases List.mem_cons.mp h with rfl | h
    · rfl
    · rw [product, ih h]
      simp

/-- The source enumeration (itertools.product) is exactly the spec
enumeration: one combination per index below the product of the
cardinalities, decoded mixed-radix with the last axis fastest. -/
theorem product_eq_specEnum : ∀ ls : List (List String), product ls = specEnum ls := by
  intro ls
  induction ls with
  | nil => rfl
  | cons l ls ih =>
    unfold specEnum
    rw [List.map_cons, List.prod_cons, range_mul_flatMap, List.map_flatMap]
    by_cases hP : ((ls.map List.length).prod) = 0
    · have hnil : [] ∈ ls := by
        rcases List.mem_map.mp (List.prod_eq_zero_iff.mp hP) with ⟨l', hl', hlen⟩
        have : l' = [] := List.length_eq_zero.mp hlen
        exact this ▸ hl'
      rw [product, product_of_mem_nil ls hnil]
      simp [hP, flatMap_const_nil]
    · have hP' : 0 < ((ls.map List.length).prod) := Nat.pos_of_ne_zero hP
      have hdec : ∀ a, ∀ b ∈ List.range ((ls.map List.length).prod),
          decodeCombo (l :: ls) ((ls.map List.length).prod * a + b) =
            l.getD a "" :: decodeCombo ls b := by
        intro a b hb
        have hbP : b < (ls.map List.length).prod := List.mem_range.mp hb
        show l.getD (((ls.map List.length).prod * a + b) / ((ls.map List.length).prod)) "" ::
            decodeCombo ls (((ls.map List.length).prod * a + b) % ((ls.map List.length).prod)) =
          l.getD a "" :: decodeCombo ls b
        rw [Nat.mul_add_div hP', Nat.div_eq_of_lt hbP, Nat.add_zero,
          Nat.mul_add_mod, Nat.mod_eq_of_lt hbP]
      calc product (l :: ls)
          = l.flatMap (fun x => (product ls).map (fun c => x :: c)) := rfl
        _ = ((List.range l.length).map (fun i => l.getD i "")).flatMap
              (fun x => (product ls).map (fun c => x :: c)) := by
            rw [range_map_getD]
        _ = (List.range l.length).flatMap
              (fun a => (product ls).map (fun c => l.getD a "" :: c)) := by
            rw [List.flatMap_map]
        _ = (List.range l.length).flatMap
              (fun a => (List.range ((ls.map List.length).prod)).map
                (fun b => decodeCombo (l :: ls) ((ls.map List.length).prod * a + b))) := by
            refine flatMap_congr _ _ _ (fun a _ => ?_)
            rw [ih]
            unfold specEnum
            rw [List.map_map]
            refine (List.map_congr_left (fun b hb => ?_)).symm
            rw [hdec a b hb]
            rfl
        _ = (List.range l.length).flatMap
              (fun a => ((List.range ((ls.map List.length).prod)).map
                (fun b => ((ls.map List.length).prod) * a + b)).map
                  (decodeCombo (l :: ls))) := by
            refine flatMap_congr _ _ _ (fun a _ => ?_)
            rw [List.map_map]
            rfl

theorem product_length (ls : List (List String)) :
    (product ls).length = (ls.map List.length).prod := by
  rw [product_eq_specEnum]
  simp [specEnum]

theorem product_mem_shape (ls : List (List String)) :
    ∀ c ∈ product ls, List.Forall₂ (fun v l => v ∈ l) c ls := by
  induction ls with
  | nil =>
    intro c hc
    have hce : c = [] := by simpa [product] using hc
    subst hce
    exact List.Forall₂.nil
  | cons l ls ih =>
    intro c hc
    rcases List.mem_flatMap.mp hc with ⟨x, hx, hc⟩
    rcases List.mem_map.mp hc with ⟨c', hc', rfl⟩
    exact List.Forall₂.cons hx (ih c' hc')

theorem product_nodup (ls : List (List String)) (h : ∀ l ∈ ls, l.Nodup) :
    (product ls).Nodup := by
  induction ls with
  | nil => simp [product]
  | cons l ls ih =>
    rw [product]
    refine List.nodup_bind.mpr ⟨?_, ?_⟩
    · intro x _
      exact ((ih (fun l' hl' => h l' (List.mem_cons_of_mem l hl'))).map
        (fun c₁ c₂ he => by injection he))
    · have hl : l.Nodup := h l (List.mem_cons_self l ls)
      refine hl.imp (fun hxy => ?_)
      intro c hc₁ hc₂
      rcases List.mem_map.mp hc₁ with ⟨c₁, _, rfl⟩
      rcases List.mem_map.mp hc₂ with ⟨c₂, _, he⟩
      exact hxy (by injection he.symm)

/-! The Python join equals the standard intercalation. -/

theorem intercalate_go (s : String) :
    ∀ (l : List String) (acc : String),
    String.intercalate.go acc s l = pyJoin s (acc :: l) := by
  intro l
  induction l with
  | nil => intro acc; rfl
  | cons b l ih =>
    intro acc
    rw [show String.intercalate.go acc s (b :: l) =
      String.intercalate.go (acc ++ s ++ b) s l from rfl, ih]
    cases l with
    | nil => rfl
    | cons c l' => simp [pyJoin, String.append_assoc]

theorem pyJoin_eq_intercalate (sep : String) (l : List String) :
    pyJoin sep l = String.intercalate sep l := by
  cases l with
  | nil => rfl
  | cons a as =>
    rw [show String.intercalate sep (a :: as) = String.intercalate.go a sep as from rfl,
      intercalate_go]

/-! Key-presence is preserved by every record-updating loop. -/

theorem dlookup_isSome_foldl {β : Type} (f : Record → β → Record)
    (hf : ∀ b x k, (dlookup b k).isSome → (dlookup (f b x) k).isSome) :
    ∀ (l : List β) (b : Record) (k : String),
    (dlookup b k).isSome → (dlookup (l.foldl f b) k).isSome := by
  intro l
  induction l with
  | nil => intro b k h; exact h
  | cons x l ih => intro b k h; exact ih (f b x) k (hf b x k h)

theorem dlookup_isSome_applyMatchedRows (df : DataFrame) (value : String)
    (b : Record) (k : String) (h : (dlookup b k).isSome) :
    (dlookup (applyMatchedRows df value b) k).isSome := by
  unfold applyMatchedRows
  refine dlookup_isSome_foldl _ ?_ _ b k h
  intro b' r k' h'
  refine dlookup_isSome_foldl _ ?_ _ b' k' h'
  intro b2 col k2 h2
  cases r.getD (colIndex df col) none with
  | none => exact h2
  | some v => exact pdLookup_pdInsert_isSome b2 col v k2 h2

theorem dlookup_isSome_mergeDesignatorOrder (names : List String)
    (smap : List (String × DataFrame)) (combo : List String) (b : Record)
    (k : String) (h : (dlookup b k).isSome) :
    (dlookup (mergeDesignatorOrder names smap combo b) k).isSome := by
  unfold mergeDesignatorOrder
  refine dlookup_isSome_foldl _ ?_ _ b k h
  intro b' p k' h'
  cases dlookupDF smap (names.getD p.1 "") with
  | none => exact h'
  | some df => exact dlookup_isSome_applyMatchedRows df p.2 b' k' h'

theorem dlookup_isSome_mergeSheetPriority (names : List String)
    (smap : List (String × DataFrame)) (combo : List String) (b : Record)
    (k : String) (h : (dlookup b k).isSome) :
    (dlookup (mergeSheetPriority names smap combo b) k).isSome := by
  unfold mergeSheetPriority
  refine dlookup_isSome_foldl _ ?_ _ b k h
  intro b' sheetName k' h'
  by_cases hc : names.contains sheetName
  · rw [if_pos hc]
    cases dlookupDF smap sheetName with
    | none => exact h'
    | some df => exact dlookup_isSome_applyMatchedRows df _ b' k' h'
  · rw [if_neg hc]; exact h'

/-! Looking up a key after the GENERAL defaults are layered. -/

theorem pdLookup_isSome_mem_keys {α : Type} (d : List (String × α)) (k : String)
    (h : (pdLookup d k).isSome) : k ∈ d.map Prod.fst := by
  unfold pdLookup at h
  cases hf : d.find? (fun p => p.1 == k) with
  | none => rw [hf] at h; simp at h
  | some p =>
    have hm : p ∈ d := List.mem_of_find?_eq_some hf
    have hp : p.1 = k := by simpa using List.find?_some hf
    exact hp ▸ List.mem_map.mpr ⟨p, hm, rfl⟩

theorem dlookup_applyGeneral (g : Record) :
    (g.map Prod.fst).Nodup →
    ∀ (b : Record) (k : String),
    dlookup (applyGeneral g b) k =
      match dlookup g k with
      | some v => some v
      | none => dlookup b k := by
  induction g with
  | nil => intro _ b k; rfl
  | cons p g ih =>
    intro hg b k
    have hpk : p.1 ∉ g.map Prod.fst := (List.nodup_cons.mp hg).1
    rw [show applyGeneral (p :: g) b = applyGeneral g (dinsert b p.1 p.2) from rfl,
      ih (List.nodup_cons.mp hg).2]
    rw [show dlookup (p :: g) k = pdLookup (p :: g) k from rfl, pdLookup_cons]
    by_cases h1 : p.1 = k
    · rw [if_pos h1]
      cases hgk : dlookup g k with
      | some v =>
        exact absurd (h1 ▸ pdLookup_isSome_mem_keys g k (by rw [show dlookup g k = pdLookup g k from rfl] at hgk; simp [hgk])) hpk
      | none =>
        rw [show dlookup (dinsert b p.1 p.2) k = pdLookup (pdInsert b p.1 p.2) k from rfl,
          pdLookup_pdInsert, if_pos h1.symm]
    · rw [if_neg h1, show pdLookup g k = dlookup g k from rfl]
      cases hgk : dlookup g k with
      | some v => rfl
      | none =>
        show dlookup (dinsert b p.1 p.2) k = dlookup b k
        rw [show dlookup (dinsert b p.1 p.2) k = pdLookup (pdInsert b p.1 p.2) k from rfl,
          pdLookup_pdInsert, if_neg (fun he => h1 he.symm)]
        rfl

theorem rowDict_aux_nodup (r : List (Option String)) :
    ∀ (ps : List (Nat × String)) (d : Record), (d.map Prod.fst).Nodup →
    ((ps.foldl (fun d p =>
      match r.getD p.1 none with
      | none => d
      | some v => dinsert d p.2 v) d).map Prod.fst).Nodup := by
  intro ps
  induction ps with
  | nil => intro d hd; exact hd
  | cons p ps ih =>
    intro d hd
    rw [List.foldl_cons]
    refine ih _ ?_
    cases r.getD p.1 none with
    | none => exact hd
    | some v => exact pdInsert_keys_nodup d p.2 v hd

/-- The keys of the GENERAL-defaults dict never repeat. -/
theorem sharedDefaultsOf_keys_nodup (sheets : Sheets) :
    ((sharedDefaultsOf sheets).map Prod.fst).Nodup := by
  unfold sharedDefaultsOf
  cases lookupSheet "GENERAL" sheets with
  | none => exact List.nodup_nil
  | some df =>
    dsimp only
    cases df.rows with
    | nil => exact List.nodup_nil
    | cons r rest =>
      dsimp only
      exact rowDict_aux_nodup r df.columns.enum [] List.nodup_nil

/-! Where each value of the GENERAL-defaults dict comes from. -/

theorem rowDict_aux_lookup (r : List (Option String)) (k v : String) :
    ∀ (ps : List (Nat × String)) (d : Record),
    dlookup (ps.foldl (fun d p =>
      match r.getD p.1 none with
      | none => d
      | some v => dinsert d p.2 v) d) k = some v →
    dlookup d k = some v ∨ ∃ p ∈ ps, p.2 = k ∧ r.getD p.1 none = some v := by
  intro ps
  induction ps with
  | nil => intro d h; exact Or.inl h
  | cons p ps ih =>
    intro d h
    rw [List.foldl_cons] at h
    rcases ih _ h with hd | ⟨q, hq, hqk, hqv⟩
    · cases hc : r.getD p.1 none with
      | none =>
        rw [hc] at hd
        exact Or.inl hd
      | some w =>
        rw [hc] at hd
        rw [show dlookup (dinsert d p.2 w) k = pdLookup (pdInsert d p.2 w) k from rfl,
          pdLookup_pdInsert] at hd
        by_cases he : k = p.2
        · refine Or.inr ⟨p, List.mem_cons_self p ps, he.symm, ?_⟩
          rw [if_pos he] at hd
          rw [hc, hd]
        · rw [if_neg he] at hd
          exact Or.inl hd
    · exact Or.inr ⟨q, List.mem_cons_of_mem p hq, hqk, hqv⟩

/-- Every binding of the row dict comes from a non-blank cell of the row
at a position whose header is the key: blanks are omitted, never turned
into empty strings. -/
theorem rowDict_lookup_source (cols : List String) (r : List (Option String))
    (k v : String) (h : dlookup (rowDict cols r) k = some v) :
    ∃ i, i < cols.length ∧ cols.getD i "" = k ∧ r.getD i none = some v := by
  rcases rowDict_aux_lookup r k v cols.enum [] h with hd | ⟨p, hp, hpk, hpv⟩
  · exact absurd hd (by simp [dlookup, pdLookup])
  · have hg : cols[p.1]? = some p.2 := List.mem_enum_iff_getElem?.mp hp
    rcases List.getElem?_eq_some.mp hg with ⟨hlt, hget⟩
    refine ⟨p.1, hlt, ?_, hpv⟩
    rw [List.getD_eq_getElem cols "" hlt, hget, hpk]

/-! The classifier as a right-to-left search (spec section 4.1). -/

theorem find?_singleton {α : Type} (p : α → Bool) (x : α) :
    List.find? p [x] = if p x then some x else none := by
  cases hp : p x <;> simp [List.find?, hp]

theorem designatorMap_aux_lookup (k : String) :
    ∀ (ss : Sheets) (m : List (String × DataFrame)),
    dlookupDF (ss.foldl (fun m p =>
      if p.1 == "ID" || p.1 == "GENERAL" then m
      else if p.2.columns.isEmpty then m
      else sinsert m (p.2.columns.headD "") p.2) m) k =
      match ss.reverse.find? (fun p =>
        !(p.1 == "ID" || p.1 == "GENERAL") && !p.2.columns.isEmpty &&
          (p.2.columns.headD "" == k)) with
      | some p => some p.2
      | none => dlookupDF m k := by
  intro ss
  induction ss with
  | nil => intro m; rfl
  | cons s ss ih =>
    intro m
    rw [List.foldl_cons, ih, List.reverse_cons, List.find?_append]
    cases hf : ss.reverse.find? (fun p =>
        !(p.1 == "ID" || p.1 == "GENERAL") && !p.2.columns.isEmpty &&
          (p.2.columns.headD "" == k)) with
    | some p => rfl
    | none =>
      dsimp only [Option.or]
      by_cases h1 : (s.1 == "ID" || s.1 == "GENERAL") = true
      · rw [if_pos h1]
        have hpred : (!(s.1 == "ID" || s.1 == "GENERAL") && !s.2.columns.isEmpty &&
            (s.2.columns.headD "" == k)) = false := by
          simp [h1]
        rw [find?_singleton, hpred, if_neg Bool.false_ne_true]
      · rw [if_neg h1]
        by_cases h2 : s.2.columns.isEmpty = true
        · rw [if_pos h2]
          have hpred : (!(s.1 == "ID" || s.1 == "GENERAL") && !s.2.columns.isEmpty &&
              (s.2.columns.headD "" == k)) = false := by
            simp [h2]
          rw [find?_singleton, hpred, if_neg Bool.false_ne_true]
        · rw [if_neg h2]
          rw [show dlookupDF (sinsert m (s.2.columns.headD "") s.2) k =
            pdLookup (pdInsert m (s.2.columns.headD "") s.2) k from rfl,
            pdLookup_pdInsert]
          by_cases h3 : (s.2.columns.headD "" == k) = true
          · have hke : k = s.2.columns.headD "" := (eq_of_beq h3).symm
            rw [if_pos hke]
            have hpred : (!(s.1 == "ID" || s.1 == "GENERAL") && !s.2.columns.isEmpty &&
                (s.2.columns.headD "" == k)) = true := by
              have hA : (s.1 == "ID" || s.1 == "GENERAL") = false := Bool.eq_false_iff.mpr h1
              have hB : s.2.columns.isEmpty = false := Bool.eq_false_iff.mpr h2
              rw [hA, hB, h3]
              rfl
            rw [find?_singleton, hpred, if_pos rfl]
          · have hke : ¬ (k = s.2.columns.headD "") := by
              intro he
              exact h3 (by simp [he])
            rw [if_neg hke]
            have h3f : (s.2.columns.headD "" == k) = false := Bool.eq_false_iff.mpr h3
            have hpred : (!(s.1 == "ID" || s.1 == "GENERAL") && !s.2.columns.isEmpty &&
                (s.2.columns.headD "" == k)) = false := by
              rw [h3f, Bool.and_false]
            rw [find?_singleton, hpred, if_neg Bool.false_ne_true]
            rfl

/-- The classified sheet map realizes the spec search: the table stored
under a key-column name is the last eligible input table with that first
column header. -/
theorem designatorMapOf_lookup (sheets : Sheets) (k : String) :
    dlookupDF (designatorMapOf sheets) k = specLastOverride sheets k := by
  unfold designatorMapOf specLastOverride
  rw [designatorMap_aux_lookup k sheets []]
  cases hf : sheets.reverse.find? (fun p =>
      !(p.1 == "ID" || p.1 == "GENERAL") && !p.2.columns.isEmpty &&
        (p.2.columns.headD "" == k)) with
  | some p => rfl
  | none => rfl

/-! Merging over an empty axis list does nothing. -/

theorem mergeDesignatorOrder_nil_combo (names : List String)
    (smap : List (String × DataFrame)) (bike : Record) :
    mergeDesignatorOrder names smap [] bike = bike := rfl

theorem mergeDesignatorOrder_nil_smap (names : List String) (combo : List String)
    (bike : Record) : mergeDesignatorOrder names [] combo bike = bike := by
  unfold mergeDesignatorOrder
  generalize combo.enum = ps
  induction ps generalizing bike with
  | nil => rfl
  | cons p ps ih =>
    rw [List.foldl_cons]
    exact ih bike

theorem mergeSheetPriority_nil_names (smap : List (String × DataFrame))
    (combo : List String) (bike : Record) :
    mergeSheetPriority [] smap combo bike = bike := by
  unfold mergeSheetPriority
  generalize smap.map Prod.fst = ks
  induction ks generalizing bike with
  | nil => rfl
  | cons x ks ih =>
    rw [List.foldl_cons, show (([] : List String).contains x) = false from rfl]
    exact ih bike

/-! Unfolding the generator according to its three outcomes. -/

theorem generate_eq_error (sheets : Sheets) (sep prec : String)
    (h : lookupSheet "ID" sheets = none) :
    generate_bicycles_from_sheets sheets sep prec =
      Except.error GenError.MissingAxisTable := by
  unfold generate_bicycles_from_sheets
  rw [h]

theorem generate_eq_empty (sheets : Sheets) (sep prec : String) (df : DataFrame)
    (h : lookupSheet "ID" sheets = some df)
    (he : (valueLists df).any (fun vals => vals.length == 0) = true) :
    generate_bicycles_from_sheets sheets sep prec = Except.ok [] := by
  unfold generate_bicycles_from_sheets
  rw [h]
  dsimp only
  rw [if_pos he]

theorem generate_eq_ok (sheets : Sheets) (sep prec : String) (df : DataFrame)
    (h : lookupSheet "ID" sheets = some df)
    (he : ¬ ((valueLists df).any (fun vals => vals.length == 0) = true)) :
    generate_bicycles_from_sheets sheets sep prec =
      Except.ok ((product (valueLists df)).map
        (mkBike sep (sharedDefaultsOf sheets) df.columns (designatorMapOf sheets) prec)) := by
  unfold generate_bicycles_from_sheets
  rw [h]
  dsimp only
  rw [if_neg he]

/-!
Claim theorems.
-/

/-- C1: in designator_order mode the merge iterates the axes in their
ID-column declaration order; for each axis with an override table keyed
by exactly that axis name it applies the attribute fields of all rows
whose key-column value equals the combination value for that axis, in
row order with later rows overwriting earlier ones on the same field
(the source loop equals the spec-worded fold); and, concretely, a field
set through an earlier axis is overwritten by a later axis even when the
later axis's table was discovered first. -/
theorem claim_designator_order_semantics :
    (∀ (names : List String) (smap : List (String × DataFrame))
      (combo : List String) (bike : Record), combo.length ≤ names.length →
      mergeDesignatorOrder names smap combo bike =
        specMergeDesignatorOrder names smap combo bike) ∧
    dlookup (mergeDesignatorOrder ["A", "B"] [("B", tblB), ("A", tblA)]
      ["a", "b"] [("ID", "x")]) "F" = some "vB" :=
  ⟨fun names smap combo bike h => mergeDesignatorOrder_eq_spec names smap combo bike h,
   by decide⟩

/-- C1 witness: the refinement applied at a concrete input. -/
theorem claim_designator_order_semantics_witness :
    mergeDesignatorOrder ["A"] [("A", tblA)] ["a"] [] =
      specMergeDesignatorOrder ["A"] [("A", tblA)] ["a"] [] :=
  claim_designator_order_semantics.1 ["A"] [("A", tblA)] ["a"] [] (by decide)

/-- C2: in sheet_priority mode the merge iterates the classified
override tables in their classification order (the source loop over the
dict keys equals the spec-worded fold over the classified tables, for
any classifier output), and a table whose key axis name is not among the
declared axis names is skipped entirely: inserting such a table anywhere
in the map leaves the result unchanged. -/
theorem claim_sheet_priority_semantics :
    (∀ (sheets : Sheets) (names : List String) (combo : List String) (bike : Record),
      mergeSheetPriority names (designatorMapOf sheets) combo bike =
        specMergeSheetPriority names (designatorMapOf sheets) combo bike) ∧
    (∀ (names : List String) (m₁ m₂ : List (String × DataFrame)) (k : String)
      (df : DataFrame) (combo : List String) (bike : Record),
      names.contains k = false →
      specMergeSheetPriority names (m₁ ++ (k, df) :: m₂) combo bike =
        specMergeSheetPriority names (m₁ ++ m₂) combo bike) := by
  constructor
  · intro sheets names combo bike
    exact mergeSheetPriority_eq_spec sheets names combo bike
  · intro names m₁ m₂ k df combo bike h
    unfold specMergeSheetPriority
    rw [List.foldl_append, List.foldl_append, List.foldl_cons]
    rw [if_neg (by rw [h]; exact Bool.false_ne_true)]

/-- C2 witness: a table keyed by an undeclared axis is inert at a
concrete input. -/
theorem claim_sheet_priority_semantics_witness :
    specMergeSheetPriority ["A"] ([] ++ ("Z", tblB) :: []) ["a"] [] =
      specMergeSheetPriority ["A"] ([] ++ []) ["a"] [] :=
  claim_sheet_priority_semantics.2 ["A"] [] [] "Z" tblB ["a"] [] (by decide)

/-- C3: classification turns every input table other than "ID" and
"GENERAL" with at least one column into an override table keyed by its
first column header; zero-column tables are skipped; and on a duplicate
key-column header the later table replaces the earlier one entirely:
the classified map answers every key with the LAST eligible input table
bearing that first-column header. -/
theorem claim_classifier_last_wins (sheets : Sheets) (k : String) :
    dlookupDF (designatorMapOf sheets) k = specLastOverride sheets k :=
  designatorMapOf_lookup sheets k

/-- C9: the same two conflicting override tables, discovered in the
order B-table then A-table while the axes are declared A then B, give
the attribute F the value vB under designator_order and the value vA
under sheet_priority — in each mode the value applied later under that
mode's iteration order. -/
theorem claim_precedence_divergence :
    generate_bicycles_from_sheets sheetsBA "-" "designator_order" =
      Except.ok [[("ID", "a-b"), ("F", "vB")]] ∧
    generate_bicycles_from_sheets sheetsBA "-" "sheet_priority" =
      Except.ok [[("ID", "a-b"), ("F", "vA")]] ∧
    ("vB" : String) ≠ "vA" := by
  refine ⟨by rfl, by rfl, by decide⟩

/-- C6: the generator fails, with the one distinguishable error
MissingAxisTable, exactly when the input has no sheet named "ID";
whenever an "ID" sheet is present the generator returns a normal (maybe
empty) result, never an error, whatever other irregularities the input
has. -/
theorem claim_missing_axis_table (sheets : Sheets) (sep prec : String) :
    (generate_bicycles_from_sheets sheets sep prec =
        Except.error GenError.MissingAxisTable ↔ lookupSheet "ID" sheets = none) ∧
    (∀ df, lookupSheet "ID" sheets = some df →
      ∃ bikes, generate_bicycles_from_sheets sheets sep prec = Except.ok bikes) := by
  constructor
  · constructor
    · intro h
      cases hid : lookupSheet "ID" sheets with
      | none => rfl
      | some df =>
        by_cases he : (valueLists df).any (fun vals => vals.length == 0) = true
        · rw [generate_eq_empty sheets sep prec df hid he] at h
          exact Except.noConfusion h
        · rw [generate_eq_ok sheets sep prec df hid he] at h
          exact Except.noConfusion h
    · intro h
      exact generate_eq_error sheets sep prec h
  · intro df hid
    by_cases he : (valueLists df).any (fun vals => vals.length == 0) = true
    · exact ⟨[], generate_eq_empty sheets sep prec df hid he⟩
    · exact ⟨_, generate_eq_ok sheets sep prec df hid he⟩

/-- C6 witness: the error on an input with no ID sheet, and a normal
result on an input with one. -/
theorem claim_missing_axis_table_witness :
    generate_bicycles_from_sheets [] "-" "designator_order" =
        Except.error GenError.MissingAxisTable ∧
    ∃ bikes, generate_bicycles_from_sheets sheetsGen "-" "designator_order" =
        Except.ok bikes :=
  ⟨(claim_missing_axis_table [] "-" "designator_order").1.mpr (by rfl),
   (claim_missing_axis_table sheetsGen "-" "designator_order").2 idAB (by rfl)⟩

/-- C7: when some axis has an empty value list after blank-dropping, the
generator returns the empty sequence (not an error), whatever the other
axes, the GENERAL sheet and the override tables are. -/
theorem claim_empty_axis_propagation (sheets : Sheets) (sep prec : String)
    (df : DataFrame) (h1 : lookupSheet "ID" sheets = some df)
    (h2 : [] ∈ valueLists df) :
    generate_bicycles_from_sheets sheets sep prec = Except.ok [] :=
  generate_eq_empty sheets sep prec df h1
    (List.any_eq_true.mpr ⟨[], h2, by decide⟩)

/-- C7 witness: an input whose second axis has only a blank cell, with a
GENERAL sheet and an override table present. -/
theorem claim_empty_axis_propagation_witness :
    generate_bicycles_from_sheets
      [("ID", emptyAxisDf), ("GENERAL", genDf), ("T2", tblA)] "-" "sheet_priority" =
      Except.ok [] :=
  claim_empty_axis_propagation
    [("ID", emptyAxisDf), ("GENERAL", genDf), ("T2", tblA)] "-" "sheet_priority"
    emptyAxisDf (by rfl) (by decide)

/-- C10: a present ID sheet with zero columns does not give an empty
result: the generator yields exactly one record, built from the empty
identifier plus the GENERAL defaults, and that record's "ID" value is
the empty string whenever no default is itself named "ID". -/
theorem claim_zero_axes_single_record (sheets : Sheets) (sep prec : String)
    (df : DataFrame) (h : lookupSheet "ID" sheets = some df) (hc : df.columns = []) :
    generate_bicycles_from_sheets sheets sep prec =
      Except.ok [applyGeneral (sharedDefaultsOf sheets) [("ID", "")]] ∧
    (dlookup (sharedDefaultsOf sheets) "ID" = none →
      dlookup (applyGeneral (sharedDefaultsOf sheets) [("ID", "")]) "ID" = some "") := by
  have hvl : valueLists df = [] := by
    unfold valueLists
    rw [hc]
    rfl
  have he : ¬ ((valueLists df).any (fun vals => vals.length == 0) = true) := by
    rw [hvl]
    decide
  constructor
  · rw [generate_eq_ok sheets sep prec df h he, hvl]
    have hbike : mkBike sep (sharedDefaultsOf sheets) df.columns
        (designatorMapOf sheets) prec [] =
        applyGeneral (sharedDefaultsOf sheets) [("ID", "")] := by
      unfold mkBike
      dsimp only
      rw [hc, show pyJoin sep [] = "" from rfl]
      by_cases hp : (prec == "designator_order") = true
      · rw [if_pos hp]
        exact mergeDesignatorOrder_nil_combo [] (designatorMapOf sheets) _
      · rw [if_neg hp]
        exact mergeSheetPriority_nil_names (designatorMapOf sheets) [] _
    rw [show product [] = [[]] from rfl]
    rw [show ([[]] : List (List String)).map (mkBike sep (sharedDefaultsOf sheets)
      df.columns (designatorMapOf sheets) prec) =
      [mkBike sep (sharedDefaultsOf sheets) df.columns (designatorMapOf sheets) prec []]
      from rfl]
    rw [hbike]
  · intro hnone
    rw [dlookup_applyGeneral (sharedDefaultsOf sheets) (sharedDefaultsOf_keys_nodup sheets)
      [("ID", "")] "ID", hnone]
    rfl

/-- C10 witness: a zero-column ID sheet with a GENERAL sheet produces
one record. -/
theorem claim_zero_axes_single_record_witness :
    generate_bicycles_from_sheets sheetsZero "-" "sheet_priority" =
      Except.ok [applyGeneral (sharedDefaultsOf sheetsZero) [("ID", "")]] :=
  (claim_zero_axes_single_record sheetsZero "-" "sheet_priority" idZero
    (by rfl) (by rfl)).1

/-- C4 counterexample: an axis whose column repeats a value has nonzero
cardinality, yet the generated combinations are NOT pairwise distinct
tuples — the single-axis table with values X, X yields the tuple (X)
twice. -/
theorem claim_cartesian_distinctness_counterexample :
    valueLists dupDf = [["X", "X"]] ∧
    (valueLists dupDf).all (fun l => !(l.length == 0)) = true ∧
    product (valueLists dupDf) = [["X"], ["X"]] ∧
    ¬ (product (valueLists dupDf)).Nodup := by decide

/-- C4 amended: the generator produces exactly the product of the axis
cardinalities many combinations, one value per axis in axis order,
enumerated with the last axis varying fastest (mixed-radix order); the
tuples are pairwise distinct PROVIDED every axis value list is
duplicate-free (with a repeated value in some axis column, duplicate
tuples occur). -/
theorem claim_cartesian_completeness_amended :
    (∀ ls : List (List String), product ls = specEnum ls) ∧
    (∀ ls : List (List String), (product ls).length = (ls.map List.length).prod) ∧
    (∀ (ls : List (List String)) (c : List String), c ∈ product ls →
      List.Forall₂ (fun v l => v ∈ l) c ls) ∧
    (∀ ls : List (List String), (∀ l ∈ ls, l.Nodup) → (product ls).Nodup) ∧
    (∀ (sheets : Sheets) (sep prec : String) (df : DataFrame) (bikes : List Record),
      lookupSheet "ID" sheets = some df →
      generate_bicycles_from_sheets sheets sep prec = Except.ok bikes →
      bikes.length = ((valueLists df).map List.length).prod) := by
  refine ⟨product_eq_specEnum, product_length, product_mem_shape, product_nodup, ?_⟩
  intro sheets sep prec df bikes hid hok
  by_cases he : (valueLists df).any (fun vals => vals.length == 0) = true
  · rw [generate_eq_empty sheets sep prec df hid he] at hok
    have hb : ([] : List Record) = bikes := by injection hok
    rcases List.any_eq_true.mp he with ⟨vals, hv, hlen⟩
    have h0 : (0 : Nat) ∈ (valueLists df).map List.length :=
      List.mem_map.mpr ⟨vals, hv, by simpa using hlen⟩
    rw [← hb]
    simpa using (List.prod_eq_zero_iff.mpr h0).symm
  · rw [generate_eq_ok sheets sep prec df hid he] at hok
    have hb : (product (valueLists df)).map
        (mkBike sep (sharedDefaultsOf sheets) df.columns (designatorMapOf sheets) prec) =
        bikes := by injection hok
    rw [← hb, List.length_map, product_length]

/-- C4 witness: the amended distinctness hypothesis discharged at a
concrete duplicate-free input. -/
theorem claim_cartesian_completeness_amended_witness :
    (product [["S", "M"], ["RED", "BLUE"]]).Nodup :=
  claim_cartesian_completeness_amended.2.2.2.1 [["S", "M"], ["RED", "BLUE"]] (by decide)

/-- C5: each record is seeded with key "ID" and then receives every
SharedDefaults pair; SharedDefaults comes from only the first GENERAL
data row (empty when the sheet is absent or has no data rows), every
default value stems from a non-blank cell of that row (blanks omitted),
a default literally named "ID" silently overwrites the identifier, and
every SharedDefaults key stays present in the fully merged record. -/
theorem claim_default_layering (sheets : Sheets) (sep prec : String)
    (names : List String) (smap : List (String × DataFrame))
    (combo : List String) (k : String) :
    (lookupSheet "GENERAL" sheets = none → sharedDefaultsOf sheets = []) ∧
    (∀ df, lookupSheet "GENERAL" sheets = some df → df.rows = [] →
      sharedDefaultsOf sheets = []) ∧
    (∀ df r rest, lookupSheet "GENERAL" sheets = some df → df.rows = r :: rest →
      sharedDefaultsOf sheets = rowDict df.columns r) ∧
    (∀ v, dlookup (sharedDefaultsOf sheets) k = some v →
      ∃ df r, lookupSheet "GENERAL" sheets = some df ∧ df.rows.head? = some r ∧
        ∃ i, i < df.columns.length ∧ df.columns.getD i "" = k ∧
          r.getD i none = some v) ∧
    (dlookup (applyGeneral (sharedDefaultsOf sheets) [("ID", pyJoin sep combo)]) k =
      match dlookup (sharedDefaultsOf sheets) k with
      | some v => some v
      | none => if k = "ID" then some (pyJoin sep combo) else none) ∧
    ((dlookup (sharedDefaultsOf sheets) k).isSome →
      (dlookup (mkBike sep (sharedDefaultsOf sheets) names smap prec combo) k).isSome) := by
  refine ⟨?_, ?_, ?_, ?_, ?_, ?_⟩
  · intro h
    unfold sharedDefaultsOf
    rw [h]
  · intro df hG hrows
    unfold sharedDefaultsOf
    rw [hG]
    dsimp only
    rw [hrows]
  · intro df r rest hG hrows
    unfold sharedDefaultsOf
    rw [hG]
    dsimp only
    rw [hrows]
  · intro v hv
    cases hG : lookupSheet "GENERAL" sheets with
    | none =>
      have h0 : sharedDefaultsOf sheets = [] := by
        unfold sharedDefaultsOf
        rw [hG]
      rw [h0] at hv
      exact absurd hv (by simp [dlookup, pdLookup])
    | some df =>
      cases hr : df.rows with
      | nil =>
        have h0 : sharedDefaultsOf sheets = [] := by
          unfold sharedDefaultsOf
          rw [hG]
          dsimp only
          rw [hr]
        rw [h0] at hv
        exact absurd hv (by simp [dlookup, pdLookup])
      | cons r rest =>
        have h0 : sharedDefaultsOf sheets = rowDict df.columns r := by
          unfold sharedDefaultsOf
          rw [hG]
          dsimp only
          rw [hr]
        rw [h0] at hv
        rcases rowDict_lookup_source df.columns r k v hv with ⟨i, hi, hik, hiv⟩
        exact ⟨df, r, rfl, by rw [hr]; rfl, i, hi, hik, hiv⟩
  · rw [dlookup_applyGeneral (sharedDefaultsOf sheets)
      (sharedDefaultsOf_keys_nodup sheets) [("ID", pyJoin sep combo)] k]
    cases hgk : dlookup (sharedDefaultsOf sheets) k with
    | some v => rfl
    | none =>
      show dlookup [("ID", pyJoin sep combo)] k =
        if k = "ID" then some (pyJoin sep combo) else none
      rw [show dlookup [("ID", pyJoin sep combo)] k =
        pdLookup [("ID", pyJoin sep combo)] k from rfl, pdLookup_cons]
      by_cases hk : k = "ID"
      · rw [if_pos hk.symm, if_pos hk]
      · rw [if_neg (fun he => hk he.symm), if_neg hk]
        rfl
  · intro hs
    have hbase : (dlookup (applyGeneral (sharedDefaultsOf sheets)
        [("ID", pyJoin sep combo)]) k).isSome := by
      rw [dlookup_applyGeneral (sharedDefaultsOf sheets)
        (sharedDefaultsOf_keys_nodup sheets) [("ID", pyJoin sep combo)] k]
      cases hgk : dlookup (sharedDefaultsOf sheets) k with
      | some v => rfl
      | none =>
        rw [hgk] at hs
        exact absurd hs (by simp)
    unfold mkBike
    dsimp only
    by_cases hp : (prec == "designator_order") = true
    · rw [if_pos hp]
      exact dlookup_isSome_mergeDesignatorOrder names smap combo _ k hbase
    · rw [if_neg hp]
      exact dlookup_isSome_mergeSheetPriority names smap combo _ k hbase

/-- C5 witness: the GENERAL default survives into a fully merged record
at a concrete input. -/
theorem claim_default_layering_witness :
    (dlookup (mkBike "-" (sharedDefaultsOf sheetsGen) ["A", "B"] []
      "designator_order" ["a", "b"]) "Manufacturer").isSome :=
  (claim_default_layering sheetsGen "-" "designator_order" ["A", "B"] []
    ["a", "b"] "Manufacturer").2.2.2.2.2 (by decide)

/-- C8: the identifier of a combination is its per-axis values joined
with the user-supplied separator in axis order (the Python join equals
the standard intercalation, and with only an ID sheet every record is
exactly that identifier under key "ID", for any separator including the
empty one); identifiers are not unique across combinations: two
distinct combinations can join to the same string. -/
theorem claim_identifier_join :
    (∀ (sep : String) (combo : List String),
      pyJoin sep combo = String.intercalate sep combo) ∧
    (∀ (df : DataFrame) (sep prec : String),
      generate_bicycles_from_sheets [("ID", df)] sep prec =
        Except.ok ((product (valueLists df)).map
          (fun c => [("ID", String.intercalate sep c)]))) ∧
    (∃ c1 c2, c1 ∈ product (valueLists idAmb) ∧ c2 ∈ product (valueLists idAmb) ∧
      c1 ≠ c2 ∧ pyJoin "" c1 = pyJoin "" c2) := by
  refine ⟨pyJoin_eq_intercalate, ?_,
    ⟨["A", "BC"], ["AB", "C"], by decide, by decide, by decide, by decide⟩⟩
  intro df sep prec
  have hid : lookupSheet "ID" [("ID", df)] = some df := rfl
  by_cases he : (valueLists df).any (fun vals => vals.length == 0) = true
  · rw [generate_eq_empty [("ID", df)] sep prec df hid he]
    rcases List.any_eq_true.mp he with ⟨vals, hv, hlen⟩
    have hnil : [] ∈ valueLists df := by
      have hve : vals = [] := List.length_eq_zero.mp (by simpa using hlen)
      exact hve ▸ hv
    rw [product_of_mem_nil _ hnil]
    rfl
  · rw [generate_eq_ok [("ID", df)] sep prec df hid he]
    congr 1
    refine List.map_congr_left (fun c _ => ?_)
    rw [show sharedDefaultsOf [("ID", df)] = [] from rfl,
      show designatorMapOf [("ID", df)] = [] from rfl]
    unfold mkBike
    dsimp only
    rw [show applyGeneral [] [("ID", pyJoin sep c)] = [("ID", pyJoin sep c)] from rfl]
    by_cases hp : (prec == "designator_order") = true
    · rw [if_pos hp, mergeDesignatorOrder_nil_smap, pyJoin_eq_intercalate]
    · rw [if_neg hp,
        show mergeSheetPriority df.columns [] c [("ID", pyJoin sep c)] =
          [("ID", pyJoin sep c)] from rfl, pyJoin_eq_intercalate]

end BicyclePermuts
